import Mathlib

/-!
Verification development for the codebuddy-stats usage/pricing/aggregation core.

The embedding models:
- `src/lib/pricing.ts` (tier tables, `selectTierPrice`, `tokensToCost`,
  `getPricingForModel`, the `MODEL_PRICING` registry);
- the data loader (`extractUsageStats`, `computeUsageCost`, the per-event
  aggregation fold of `loadCodeUsageData` / `loadIdeUsageData`, and
  `finalizeAnalysis`);
- `src/lib/workspace-resolver.ts` (`tryResolveCodePath` backtracking
  segmentation, `resolveProjectName`, home-dir display shortening).

JavaScript numbers are modelled by `ℚ` (the spec reasons in exact arithmetic),
`Number.POSITIVE_INFINITY` tier limits by a dedicated `TierLimit.inf`
constructor, optional/nullable JSON fields by `Option`, JS objects used as
string-keyed records by association lists in insertion order, and the
filesystem-existence probe `pathExistsSync` by an abstract `String → Bool`
predicate.
-/

/-- Tier limit: a finite limit or `Number.POSITIVE_INFINITY`. -/
inductive TierLimit where
  | fin (q : ℚ) : TierLimit
  | inf : TierLimit
deriving DecidableEq

/-- The JS comparison `tokens <= tier.limit` (anything is `<=` infinity). -/
def tokenLeLimit (tokens : ℚ) : TierLimit → Bool
  | .fin q => decide (tokens ≤ q)
  | .inf => true

/-- Ordering between tier limits (finite below infinite). -/
def limitLe : TierLimit → TierLimit → Bool
  | .fin a, .fin b => decide (a ≤ b)
  | _, .inf => true
  | .inf, .fin _ => false

/-- Embedding of `PricingTier` from src/lib/pricing.ts. -/
structure PricingTier where
  limit : TierLimit
  pricePerMTok : ℚ
deriving DecidableEq

/-- Embedding of `ModelPricing` from src/lib/pricing.ts. -/
structure ModelPricing where
  prompt : List PricingTier
  completion : List PricingTier
  cacheRead : List PricingTier
  cacheWrite : List PricingTier
deriving DecidableEq

/-- Embedding of `createPricing` from src/lib/pricing.ts: single-tier tables with an
infinite cap; `cacheWritePrice` defaults to `inputPrice` when absent. -/
def createPricing (inputPrice cachedInputPrice outputPrice : ℚ)
    (cacheWritePrice : Option ℚ) : ModelPricing :=
  { prompt := [⟨.inf, inputPrice⟩]
    completion := [⟨.inf, outputPrice⟩]
    cacheRead := [⟨.inf, cachedInputPrice⟩]
    cacheWrite := [⟨.inf, cacheWritePrice.getD inputPrice⟩] }

/-- The `MODEL_PRICING` registry from src/lib/pricing.ts, as an association
list in source order. -/
def MODEL_PRICING : List (String × ModelPricing) :=
  [ ("gpt-5.2", createPricing 1.75 0.175 14.0 none)
  , ("gpt-5.1", createPricing 1.25 0.125 10.0 none)
  , ("gpt-5", createPricing 1.25 0.125 10.0 none)
  , ("gpt-5-mini", createPricing 0.25 0.025 2.0 none)
  , ("gpt-5-nano", createPricing 0.05 0.005 0.4 none)
  , ("gpt-5.1-chat-latest", createPricing 1.25 0.125 10.0 none)
  , ("gpt-5-chat-latest", createPricing 1.25 0.125 10.0 none)
  , ("gpt-5.1-codex", createPricing 1.25 0.125 10.0 none)
  , ("gpt-5.1-codex-max", createPricing 1.25 0.125 10.0 none)
  , ("gpt-5.1-codex-mini", createPricing 0.25 0.025 2.0 none)
  , ("gpt-5-codex", createPricing 1.25 0.125 10.0 none)
  , ("claude-opus-4.5", createPricing 5.0 0.5 25.0 (some 10.0))
  , ("claude-haiku-4.5", createPricing 1.0 0.1 5.0 (some 1.25))
  , ("claude-4.5",
      { prompt := [⟨.fin 200000, 3.0⟩, ⟨.inf, 6.0⟩]
        completion := [⟨.fin 200000, 15.0⟩, ⟨.inf, 22.5⟩]
        cacheRead := [⟨.fin 200000, 0.3⟩, ⟨.inf, 0.6⟩]
        cacheWrite := [⟨.fin 200000, 6.0⟩, ⟨.inf, 12.0⟩] })
  , ("gemini-3.0-pro",
      { prompt := [⟨.fin 200000, 2.0⟩, ⟨.inf, 4.0⟩]
        completion := [⟨.fin 200000, 12.0⟩, ⟨.inf, 18.0⟩]
        cacheRead := [⟨.fin 200000, 0.2⟩, ⟨.inf, 0.4⟩]
        cacheWrite := [⟨.fin 200000, 0.2⟩, ⟨.inf, 0.4⟩] })
  , ("gemini-3.0-flash", createPricing 0.5 0.05 3.0 none)
  , ("gemini-2.5-pro",
      { prompt := [⟨.fin 200000, 1.25⟩, ⟨.inf, 2.5⟩]
        completion := [⟨.fin 200000, 10.0⟩, ⟨.inf, 15.0⟩]
        cacheRead := [⟨.fin 200000, 0.125⟩, ⟨.inf, 0.25⟩]
        cacheWrite := [⟨.fin 200000, 0.125⟩, ⟨.inf, 0.25⟩] })
  , ("glm-4.7",
      { prompt := [⟨.fin 32000, 0.286⟩, ⟨.inf, 0.571⟩]
        completion := [⟨.fin 32000, 1.143⟩, ⟨.inf, 2.286⟩]
        cacheRead := [⟨.fin 32000, 0.057⟩, ⟨.inf, 0.114⟩]
        cacheWrite := [⟨.fin 32000, 0.286⟩, ⟨.inf, 0.571⟩] })
  , ("glm-4.6",
      { prompt := [⟨.fin 32000, 0.286⟩, ⟨.inf, 0.571⟩]
        completion := [⟨.fin 32000, 1.143⟩, ⟨.inf, 2.286⟩]
        cacheRead := [⟨.fin 32000, 0.057⟩, ⟨.inf, 0.114⟩]
        cacheWrite := [⟨.fin 32000, 0.286⟩, ⟨.inf, 0.571⟩] })
  , ("deepseek-v3.1", createPricing 0.56 0.056 1.68 none)
  ]

/-- Embedding of `DEFAULT_MODEL_ID` from src/lib/pricing.ts. -/
def DEFAULT_MODEL_ID : String := "gpt-5.1"

/-- The `for (const tier of tiers)` loop body of `selectTierPrice`:
returns the price of the first tier whose limit is `>=` tokens, `none` if
the loop falls through. -/
def selectTierPriceLoop (tokens : ℚ) : List PricingTier → Option ℚ
  | [] => none
  | t :: ts =>
    if tokenLeLimit tokens t.limit then some t.pricePerMTok
    else selectTierPriceLoop tokens ts

/-- Embedding of `selectTierPrice` from src/lib/pricing.ts lines 158-166 (including the
`?? 0` fallbacks on an empty table). -/
def selectTierPrice (tokens : ℚ) (tiers : List PricingTier) : ℚ :=
  if tokens ≤ 0 then ((tiers.head?).map PricingTier.pricePerMTok).getD 0
  else
    match selectTierPriceLoop tokens tiers with
    | some p => p
    | none => ((tiers.getLast?).map PricingTier.pricePerMTok).getD 0

/-- Embedding of `tokensToCost` from src/lib/pricing.ts lines 168-172. The JS guard
`if (!tokens) return 0` fires exactly when `tokens` is `0` (for rationals). -/
def tokensToCost (tokens : ℚ) (tiers : List PricingTier) : ℚ :=
  if tokens = 0 then 0
  else (tokens / 1000000) * selectTierPrice tokens tiers

/-- Placeholder table for the unreachable `throw` branch of
`getPricingForModel` (the default model is present in the registry, so the
branch never fires; see `MODEL_PRICING`). -/
def emptyPricing : ModelPricing :=
  { prompt := [], completion := [], cacheRead := [], cacheWrite := [] }

/-- Embedding of `getPricingForModel` from src/lib/pricing.ts lines 174-185. A `none` or
empty-string id (falsy in JS) falls back to the table of the default model. -/
def getPricingForModel (modelId : Option String) : ModelPricing :=
  let fallback := (MODEL_PRICING.lookup DEFAULT_MODEL_ID).getD emptyPricing
  match modelId with
  | none => fallback
  | some id =>
    if id = "" then fallback
    else
      match MODEL_PRICING.lookup id with
      | some p => p
      | none => fallback

/-- Embedding of `RawUsage` from the data loader: optional JSON number fields. -/
structure RawUsage where
  prompt_tokens : Option ℚ
  completion_tokens : Option ℚ
  total_tokens : Option ℚ
  prompt_cache_hit_tokens : Option ℚ
  prompt_cache_miss_tokens : Option ℚ
  cache_creation_input_tokens : Option ℚ
deriving DecidableEq

/-- Embedding of `UsageStats` from the data loader. -/
structure UsageStats where
  promptTokens : ℚ
  completionTokens : ℚ
  totalTokens : ℚ
  cacheHitTokens : ℚ
  cacheMissTokens : ℚ
  cacheWriteTokens : ℚ
deriving DecidableEq

/-- Embedding of `extractUsageStats` from the data loader (lines 123-140): `??` defaults,
with the cache-miss count derived from `promptTokens - cacheHitTokens` when
absent and cache hits are positive. -/
def extractUsageStats (usage : RawUsage) : UsageStats :=
  let promptTokens := usage.prompt_tokens.getD 0
  let completionTokens := usage.completion_tokens.getD 0
  let totalTokens := usage.total_tokens.getD (promptTokens + completionTokens)
  let cacheHitTokens := usage.prompt_cache_hit_tokens.getD 0
  let cacheMissTokens := usage.prompt_cache_miss_tokens.getD
    (if 0 < cacheHitTokens then max (promptTokens - cacheHitTokens) 0 else 0)
  let cacheWriteTokens := usage.cache_creation_input_tokens.getD 0
  { promptTokens := promptTokens
    completionTokens := completionTokens
    totalTokens := totalTokens
    cacheHitTokens := cacheHitTokens
    cacheMissTokens := cacheMissTokens
    cacheWriteTokens := cacheWriteTokens }

/-- Embedding of `computeUsageCost` from the data loader (lines 142-158). The JS truthiness
test `stats.cacheHitTokens || stats.cacheMissTokens || stats.cacheWriteTokens`
holds exactly when one of the three counts is non-zero. -/
def computeUsageCost (usage : RawUsage) (modelId : String) : ℚ × UsageStats :=
  let stats := extractUsageStats usage
  let pricing := getPricingForModel (some modelId)
  let inputCost :=
    if stats.cacheHitTokens ≠ 0 ∨ stats.cacheMissTokens ≠ 0 ∨ stats.cacheWriteTokens ≠ 0 then
      tokensToCost stats.cacheHitTokens pricing.cacheRead +
        tokensToCost stats.cacheMissTokens pricing.prompt +
        tokensToCost stats.cacheWriteTokens pricing.cacheWrite
    else
      tokensToCost stats.promptTokens pricing.prompt
  let outputCost := tokensToCost stats.completionTokens pricing.completion
  (inputCost + outputCost, stats)

/-- Embedding of `SummaryStats` from the data loader. -/
structure SummaryStats where
  cost : ℚ
  tokens : ℚ
  requests : ℕ
deriving DecidableEq

/-- Embedding of `GrandTotal` from the data loader. -/
structure GrandTotal where
  cost : ℚ
  tokens : ℚ
  requests : ℕ
  cacheHitTokens : ℚ
  cacheMissTokens : ℚ
deriving DecidableEq

/-- Embedding of `DailyModelStats` from the data loader. -/
structure DailyModelStats where
  cost : ℚ
  promptTokens : ℚ
  completionTokens : ℚ
  totalTokens : ℚ
  cacheHitTokens : ℚ
  cacheMissTokens : ℚ
  cacheWriteTokens : ℚ
  requests : ℕ
deriving DecidableEq

/-- A JS object used as a string-keyed record, in key-insertion order. -/
abbrev StrMap (α : Type) := List (String × α)

/-- The JS pattern `m[k] ??= d; m[k] = f(m[k])`: update the binding of `k`
in place if present, otherwise append `(k, f d)` (new keys go last, as in
JS object insertion order). -/
def upsert {α : Type} (k : String) (f : α → α) (d : α) : StrMap α → StrMap α
  | [] => [(k, f d)]
  | (k₁, v) :: rest => if k₁ = k then (k, f v) :: rest else (k₁, v) :: upsert k f d rest

/-- Embedding of `DailyData` from the data loader: date → project → model → stats. -/
abbrev DailyData := StrMap (StrMap (StrMap DailyModelStats))

/-- The zero-initialised cell created by `ensureDailyModelStats`. -/
def initDailyModelStats : DailyModelStats :=
  { cost := 0, promptTokens := 0, completionTokens := 0, totalTokens := 0
    cacheHitTokens := 0, cacheMissTokens := 0, cacheWriteTokens := 0, requests := 0 }

/-- The zero-initialised `{cost: 0, tokens: 0, requests: 0}` roll-up cell. -/
def initSummary : SummaryStats := { cost := 0, tokens := 0, requests := 0 }

/-- The mutable accumulators of a load, before `finalizeAnalysis`. -/
structure AggState where
  dailyData : DailyData
  modelTotals : StrMap SummaryStats
  projectTotals : StrMap SummaryStats
  grandTotal : GrandTotal
deriving DecidableEq

/-- The accumulators as initialised at the start of a load. -/
def initAggState : AggState :=
  { dailyData := []
    modelTotals := []
    projectTotals := []
    grandTotal := { cost := 0, tokens := 0, requests := 0, cacheHitTokens := 0, cacheMissTokens := 0 } }

/-- The JS fallback `modelFromRecord || defaultModelId` (null or empty string
falls back to the default model). -/
def usedModel (defaultModelId : String) : Option String → String
  | some m => if m = "" then defaultModelId else m
  | none => defaultModelId

/-- One parsed, date-filtered record of the "code" source: everything the
loop body of `loadCodeUsageData` uses after its skip guards. -/
structure CodeEvent where
  date : String
  project : String
  model : Option String
  usage : RawUsage
deriving DecidableEq

/-- The per-cell mutation of the "code" loop (lines 304-311). -/
def addDailyCode (cost : ℚ) (u : UsageStats) (s : DailyModelStats) : DailyModelStats :=
  { cost := s.cost + cost
    promptTokens := s.promptTokens + u.promptTokens
    completionTokens := s.completionTokens + u.completionTokens
    totalTokens := s.totalTokens + u.totalTokens
    cacheHitTokens := s.cacheHitTokens + u.cacheHitTokens
    cacheMissTokens := s.cacheMissTokens + u.cacheMissTokens
    cacheWriteTokens := s.cacheWriteTokens + u.cacheWriteTokens
    requests := s.requests + 1 }

/-- The per-roll-up mutation shared by model and project totals. -/
def addSummary (cost tokens : ℚ) (s : SummaryStats) : SummaryStats :=
  { cost := s.cost + cost, tokens := s.tokens + tokens, requests := s.requests + 1 }

/-- Folding one "code" record into the accumulators: lines 297-327 of the
data loader (`ensureDailyModelStats` plus the additive updates). -/
def foldCodeEvent (defaultModelId : String) (st : AggState) (ev : CodeEvent) : AggState :=
  let modelId := usedModel defaultModelId ev.model
  let r := computeUsageCost ev.usage modelId
  let cost := r.1
  let u := r.2
  { dailyData :=
      upsert ev.date
        (fun pm => upsert ev.project
          (fun mm => upsert modelId (addDailyCode cost u) initDailyModelStats mm) [] pm)
        [] st.dailyData
    modelTotals := upsert modelId (addSummary cost u.totalTokens) initSummary st.modelTotals
    projectTotals := upsert ev.project (addSummary cost u.totalTokens) initSummary st.projectTotals
    grandTotal :=
      { cost := st.grandTotal.cost + cost
        tokens := st.grandTotal.tokens + u.totalTokens
        requests := st.grandTotal.requests + 1
        cacheHitTokens := st.grandTotal.cacheHitTokens + u.cacheHitTokens
        cacheMissTokens := st.grandTotal.cacheMissTokens + u.cacheMissTokens } }

/-- One request of the "ide" source after its numeric-coercion guards:
date, workspace hash, inferred model, and the three token counts. -/
structure IdeEvent where
  date : String
  workspaceHash : String
  inferredModel : Option String
  inputTokens : ℚ
  outputTokens : ℚ
  totalTokens : ℚ
deriving DecidableEq

/-- The per-cell mutation of the "ide" loop (lines 556-560): no cache
fields are added. -/
def addDailyIde (cost : ℚ) (u : UsageStats) (s : DailyModelStats) : DailyModelStats :=
  { cost := s.cost + cost
    promptTokens := s.promptTokens + u.promptTokens
    completionTokens := s.completionTokens + u.completionTokens
    totalTokens := s.totalTokens + u.totalTokens
    cacheHitTokens := s.cacheHitTokens
    cacheMissTokens := s.cacheMissTokens
    cacheWriteTokens := s.cacheWriteTokens
    requests := s.requests + 1 }

/-- The clamped `rawUsage` record the "ide" loop builds (lines 546-550). -/
def ideRawUsage (ev : IdeEvent) : RawUsage :=
  { prompt_tokens := some (max 0 ev.inputTokens)
    completion_tokens := some (max 0 ev.outputTokens)
    total_tokens := some (max 0 ev.totalTokens)
    prompt_cache_hit_tokens := none
    prompt_cache_miss_tokens := none
    cache_creation_input_tokens := none }

/-- Folding one "ide" request into the accumulators: lines 546-574 of the
data loader (clamped raw usage, then the additive updates; the cache
counters of the grand total are untouched). -/
def foldIdeEvent (defaultModelId : String) (st : AggState) (ev : IdeEvent) : AggState :=
  let modelId := usedModel defaultModelId ev.inferredModel
  let r := computeUsageCost (ideRawUsage ev) modelId
  let cost := r.1
  let u := r.2
  { dailyData :=
      upsert ev.date
        (fun pm => upsert ev.workspaceHash
          (fun mm => upsert modelId (addDailyIde cost u) initDailyModelStats mm) [] pm)
        [] st.dailyData
    modelTotals := upsert modelId (addSummary cost u.totalTokens) initSummary st.modelTotals
    projectTotals := upsert ev.workspaceHash (addSummary cost u.totalTokens) initSummary st.projectTotals
    grandTotal :=
      { cost := st.grandTotal.cost + cost
        tokens := st.grandTotal.tokens + u.totalTokens
        requests := st.grandTotal.requests + 1
        cacheHitTokens := st.grandTotal.cacheHitTokens
        cacheMissTokens := st.grandTotal.cacheMissTokens } }

/-- Embedding of `WorkspaceMapping` from src/lib/workspace-resolver.ts. -/
structure WorkspaceMapping where
  hash : String
  folderUri : String
  displayPath : String
deriving DecidableEq

/-- The per-date summation of `finalizeAnalysis` (lines 209-218). -/
def daySummary (pm : StrMap (StrMap DailyModelStats)) : SummaryStats :=
  pm.foldl
    (fun acc p =>
      p.2.foldl
        (fun acc2 q =>
          { cost := acc2.cost + q.2.cost
            tokens := acc2.tokens + q.2.totalTokens
            requests := acc2.requests + q.2.requests })
        acc)
    initSummary

/-- Embedding of `Object.entries(m).sort((a, b) => b[1].cost - a[1].cost)[0]`: the head of
a stable sort by descending cost. -/
def topEntry (m : StrMap SummaryStats) : Option (String × SummaryStats) :=
  (m.mergeSort (fun a b => decide (b.2.cost ≤ a.2.cost))).head?

/-- Embedding of `AnalysisData` from the data loader. -/
structure AnalysisData where
  defaultModelId : String
  dailyData : DailyData
  dailySummary : StrMap SummaryStats
  modelTotals : StrMap SummaryStats
  projectTotals : StrMap SummaryStats
  grandTotal : GrandTotal
  topModel : Option (String × SummaryStats)
  topProject : Option (String × SummaryStats)
  cacheHitRate : ℚ
  activeDays : ℕ
  workspaceMappings : Option (StrMap WorkspaceMapping)
deriving DecidableEq

/-- Embedding of `finalizeAnalysis` from the data loader (lines 200-241). -/
def finalizeAnalysis (defaultModelId : String) (st : AggState)
    (ws : Option (StrMap WorkspaceMapping)) : AnalysisData :=
  { defaultModelId := defaultModelId
    dailyData := st.dailyData
    dailySummary := st.dailyData.map (fun p => (p.1, daySummary p.2))
    modelTotals := st.modelTotals
    projectTotals := st.projectTotals
    grandTotal := st.grandTotal
    topModel := topEntry st.modelTotals
    topProject := topEntry st.projectTotals
    cacheHitRate :=
      if 0 < st.grandTotal.cacheHitTokens + st.grandTotal.cacheMissTokens then
        st.grandTotal.cacheHitTokens /
          (st.grandTotal.cacheHitTokens + st.grandTotal.cacheMissTokens)
      else 0
    activeDays := st.dailyData.length
    workspaceMappings := ws }

/-- One line of a "code"-source jsonl file as `JSON.parse` sees it:
either unparseable, or a record whose `providerData.rawUsage`,
`providerData.model` (when a string) and timestamp may each be missing.
A present timestamp is modelled by its parse result: `some d` when
`new Date(timestamp)` is valid and `d` is its ISO date, `none` when the
parse yields `NaN`. -/
inductive CodeLine where
  | malformed : CodeLine
  | record (rawUsage : Option RawUsage) (model : Option String)
      (timestamp : Option (Option String)) : CodeLine
deriving DecidableEq

/-- The skip guards of lines 283-293 of the "code" loop: `none` for a line
that fails to parse, lacks a usage payload, or lacks a valid timestamp. -/
def parseLine (project : String) : CodeLine → Option CodeEvent
  | .malformed => none
  | .record u m ts =>
    match u, ts with
    | some usage, some (some date) => some ⟨date, project, m, usage⟩
    | some _, some none => none
    | some _, none => none
    | none, _ => none

/-- Lexicographic `<` on char lists: the JS string comparison
`date < minDate` used by the date cutoff. -/
def strLtList : List Char → List Char → Bool
  | [], [] => false
  | [], _ :: _ => true
  | _ :: _, [] => false
  | a :: as, b :: bs => if a < b then true else if b < a then false else strLtList as bs

/-- The guard `if (minDate && date < minDate) continue` (line 295). -/
def dateOK (minDate : Option String) (date : String) : Bool :=
  match minDate with
  | none => true
  | some md => !(strLtList date.data md.data)

/-- Lines 283-295 in full: parse result plus date cutoff. -/
def lineToEvent (minDate : Option String) (project : String) (l : CodeLine) : Option CodeEvent :=
  (parseLine project l).bind (fun ev => if dateOK minDate ev.date then some ev else none)

/-- The whole "code" loop body for one line: fold the event when the line
survives every guard, otherwise leave the accumulators untouched. -/
def stepLine (defaultModelId : String) (minDate : Option String) (project : String)
    (st : AggState) (l : CodeLine) : AggState :=
  match lineToEvent minDate project l with
  | some ev => foldCodeEvent defaultModelId st ev
  | none => st

/-- One discovered jsonl file: its derived project token and its lines. -/
structure CodeFile where
  project : String
  lines : List CodeLine
deriving DecidableEq

/-- The full "code" aggregation over the discovered files. -/
def loadCodeAgg (defaultModelId : String) (minDate : Option String)
    (files : List CodeFile) (st : AggState) : AggState :=
  files.foldl (fun s f => f.lines.foldl (stepLine defaultModelId minDate f.project) s) st

/-- Small-step view of a `foldl`, as a relation: used to state that a run of
the aggregation loop is a function of its inputs. -/
inductive FoldRel {α : Type} (f : AggState → α → AggState) : AggState → List α → AggState → Prop where
  | nil : ∀ st, FoldRel f st [] st
  | cons : ∀ st x xs out, FoldRel f (f st x) xs out → FoldRel f st (x :: xs) out

/-- A run of the whole "code" pipeline over the discovered files, file by
file and line by line. -/
inductive CodeLoadRel (defaultModelId : String) (minDate : Option String) :
    AggState → List CodeFile → AggState → Prop where
  | nil : ∀ st, CodeLoadRel defaultModelId minDate st [] st
  | cons : ∀ st f fs mid out,
      FoldRel (stepLine defaultModelId minDate f.project) st f.lines mid →
      CodeLoadRel defaultModelId minDate mid fs out →
      CodeLoadRel defaultModelId minDate st (f :: fs) out

/-- Sum of `g` over the values of a string-keyed record. -/
def sumMapQ {α : Type} (g : α → ℚ) (m : StrMap α) : ℚ :=
  (m.map (fun p => g p.2)).sum

/-- Sum of the `cost` field over every `(date, project, model)` cell. -/
def dailyCostSum (d : DailyData) : ℚ :=
  sumMapQ (fun pm => sumMapQ (fun mm => sumMapQ (fun s => s.cost) mm) pm) d

/-- The usage stats a "code" record contributes to every accumulator
(`computeUsageCost` returns `extractUsageStats` of the raw usage). -/
def eventStats (ev : CodeEvent) : UsageStats := extractUsageStats ev.usage

/-- Splitting a character list at a separator, as JS string split does. -/
def splitOnCharList (sep : Char) : List Char → List (List Char)
  | [] => [[]]
  | c :: cs =>
    let r := splitOnCharList sep cs
    if c = sep then [] :: r
    else
      match r with
      | [] => [[c]]
      | g :: gs => (c :: g) :: gs

/-- Embedding of the dash split used by `tryResolveCodePath`. -/
def splitDash (s : String) : List String :=
  (splitOnCharList '-' s.data).map String.mk

/-- Embedding of the dash join of merged fragments in the backtracking loop. -/
def joinDash (l : List String) : String := String.intercalate "-" l

/-- Embedding of the path extension step: a leading slash when the current
path is empty, a slash-separated extension otherwise. -/
def mkPath (cur seg : String) : String :=
  if cur = "" then "/" ++ seg else cur ++ "/" ++ seg

/-- The `backtrack` search of `tryResolveCodePath` (lines 514-543), against
an abstract filesystem-existence predicate `fsys` standing for
`pathExistsSync`. The state is mid-loop: `acc` holds the fragments merged so
far into the component under construction (`parts.slice(index, end + 1)`),
`rest` the fragments not yet consumed. An empty `rest` is the last-segment
branch; otherwise the smallest merge is tried first (recurse behind an
existence check on the intermediate prefix), and on failure the component is
extended by the next fragment. -/
def tryFrom (fsys : String → Bool) (cur : String) (acc : List String) :
    List String → Option String
  | [] =>
    let np := mkPath cur (joinDash acc)
    if fsys np then some np else none
  | next :: r =>
    let np := mkPath cur (joinDash acc)
    match (if fsys np then tryFrom fsys np [next] r else none) with
    | some result => some result
    | none => tryFrom fsys cur (acc ++ [next]) r

/-- Embedding of `tryResolveCodePath` from src/lib/workspace-resolver.ts lines 500-548,
without the per-run memo cache (the cache is semantically transparent):
tokens with fewer than two dash-fragments resolve to `null`, otherwise the
backtracking search starts from the empty path. -/
def tryResolveCodePath (fsys : String → Bool) (name : String) : Option String :=
  match splitDash name with
  | p :: q :: rest => tryFrom fsys "" [p] (q :: rest)
  | _ => none

/-- The regex test `/^[a-f0-9]{32}$/` for workspace hashes. -/
def isHex32 (s : String) : Bool :=
  s.data.length == 32 && s.data.all (fun c => c.isDigit || ('a' ≤ c && c ≤ 'f'))

/-- The regex test `/^[A-Za-z]/`. -/
def startsWithLetter (s : String) : Bool :=
  match s.data with
  | [] => false
  | c :: _ => c.isAlpha

/-- Embedding of `formatDisplayPath` from src/lib/workspace-resolver.ts lines 51-57, with
the home directory passed explicitly in place of `os.homedir()`. -/
def formatDisplayPath (home p : String) : String :=
  if home.data.isPrefixOf p.data then "~" ++ (p.drop home.length) else p

/-- Embedding of `resolveProjectName` from src/lib/workspace-resolver.ts lines 555-574. -/
def resolveProjectName (fsys : String → Bool) (home : String)
    (mappings : Option (StrMap WorkspaceMapping)) (name : String) : String :=
  let viaMapping : Option String :=
    match mappings with
    | some ms =>
      if isHex32 name then (ms.lookup name).map WorkspaceMapping.displayPath else none
    | none => none
  match viaMapping with
  | some dp => dp
  | none =>
    if startsWithLetter name && name.data.contains '-' then
      match tryResolveCodePath fsys name with
      | some resolved => formatDisplayPath home resolved
      | none => name
    else name

/-- Modelled from the spec (section 4.6 / design note on the backtracking
segmentation search): the candidate segmentations of the dash fragments, in
the depth-first, smallest-merge-first order of the search. `compFrom acc rest`
lists the segmentations whose first component starts with the fragments
`acc`; a segmentation is a list of components, each a nonempty fragment
group. -/
def compFrom (acc : List String) : List String → List (List (List String))
  | [] => [[acc]]
  | next :: r => ((compFrom [next] r).map (fun c => acc :: c)) ++ compFrom (acc ++ [next]) r

/-- Modelled from the spec: the cumulative filesystem paths a candidate
segmentation probes, starting from `cur`. -/
def candPaths (cur : String) : List (List String) → List String
  | [] => []
  | g :: gs => mkPath cur (joinDash g) :: candPaths (mkPath cur (joinDash g)) gs

/-- Modelled from the spec: a candidate survives when every probed prefix
(intermediate and final) exists; its value is the full path. -/
def okPath (fsys : String → Bool) (cur : String) (c : List (List String)) : Option String :=
  if (candPaths cur c).all fsys then (candPaths cur c).getLast? else none

/-- Modelled from the spec: the first surviving candidate in search order. -/
def firstOK (fsys : String → Bool) (cur : String) (cands : List (List (List String))) :
    Option String :=
  (cands.filterMap (okPath fsys cur)).head?


/-! ## Pricing-engine lemmas -/

theorem tokenLeLimit_mono {t1 t2 : ℚ} (h : t1 ≤ t2) {l : TierLimit}
    (h2 : tokenLeLimit t2 l = true) : tokenLeLimit t1 l = true := by
  cases l with
  | fin q =>
    simp only [tokenLeLimit, decide_eq_true_eq] at h2 ⊢
    exact le_trans h h2
  | inf => rfl

theorem loop_eq_findQ (tokens : ℚ) (ts : List PricingTier) :
    selectTierPriceLoop tokens ts =
      (ts.find? (fun u => tokenLeLimit tokens u.limit)).map PricingTier.pricePerMTok := by
  induction ts with
  | nil => rfl
  | cons t rest ih =>
    by_cases h : tokenLeLimit tokens t.limit = true
    · simp [selectTierPriceLoop, List.find?, h]
    · simp only [Bool.not_eq_true] at h
      simp [selectTierPriceLoop, List.find?, h, ih]

theorem loop_mem {tokens : ℚ} {ts : List PricingTier} {p : ℚ}
    (h : selectTierPriceLoop tokens ts = some p) :
    ∃ u ∈ ts, u.pricePerMTok = p ∧ tokenLeLimit tokens u.limit = true := by
  induction ts with
  | nil => simp [selectTierPriceLoop] at h
  | cons t rest ih =>
    by_cases hm : tokenLeLimit tokens t.limit = true
    · simp only [selectTierPriceLoop, hm, if_true, Option.some.injEq] at h
      exact ⟨t, by simp, h, hm⟩
    · simp only [selectTierPriceLoop, hm, if_false, Bool.false_eq_true] at h
      obtain ⟨u, hu, hp, hl⟩ := ih h
      exact ⟨u, by simp [hu], hp, hl⟩

theorem limitLe_refl (l : TierLimit) : limitLe l l = true := by
  cases l with
  | fin q => simp [limitLe]
  | inf => rfl

theorem loop_minimal {tokens : ℚ} {ts : List PricingTier} {p : ℚ}
    (hs : ts.Pairwise (fun a b => limitLe a.limit b.limit = true))
    (h : selectTierPriceLoop tokens ts = some p) :
    ∃ u ∈ ts, u.pricePerMTok = p ∧ tokenLeLimit tokens u.limit = true ∧
      ∀ v ∈ ts, tokenLeLimit tokens v.limit = true → limitLe u.limit v.limit = true := by
  induction ts with
  | nil => simp [selectTierPriceLoop] at h
  | cons t rest ih =>
    rcases List.pairwise_cons.mp hs with ⟨hhead, htail⟩
    by_cases hm : tokenLeLimit tokens t.limit = true
    · simp only [selectTierPriceLoop, hm, if_true, Option.some.injEq] at h
      refine ⟨t, by simp, h, hm, ?_⟩
      intro v hv _
      rcases List.mem_cons.mp hv with hv | hv
      · subst hv
        exact limitLe_refl _
      · exact hhead v hv
    · simp only [selectTierPriceLoop, hm, if_false, Bool.false_eq_true] at h
      obtain ⟨u, hu, hp, hl, hmin⟩ := ih htail h
      refine ⟨u, by simp [hu], hp, hl, ?_⟩
      intro v hv hvm
      rcases List.mem_cons.mp hv with hv | hv
      · subst hv
        exact absurd hvm (by simp [hm])
      · exact hmin v hv hvm

theorem loop_none_mono {t1 t2 : ℚ} (h12 : t1 ≤ t2) {ts : List PricingTier}
    (h : selectTierPriceLoop t1 ts = none) : selectTierPriceLoop t2 ts = none := by
  induction ts with
  | nil => rfl
  | cons t rest ih =>
    by_cases hm : tokenLeLimit t1 t.limit = true
    · simp [selectTierPriceLoop, hm] at h
    · have hm2 : ¬ tokenLeLimit t2 t.limit = true := fun hc => hm (tokenLeLimit_mono h12 hc)
      simp only [selectTierPriceLoop, hm, if_false, Bool.false_eq_true] at h
      simp only [selectTierPriceLoop, hm2, if_false, Bool.false_eq_true]
      exact ih h

theorem loop_price_mono {t1 t2 : ℚ} (h12 : t1 ≤ t2) {ts : List PricingTier}
    (hp : ts.Pairwise (fun a b => a.pricePerMTok ≤ b.pricePerMTok)) {p2 : ℚ}
    (h : selectTierPriceLoop t2 ts = some p2) :
    ∃ p1, selectTierPriceLoop t1 ts = some p1 ∧ p1 ≤ p2 := by
  induction ts with
  | nil => simp [selectTierPriceLoop] at h
  | cons t rest ih =>
    rcases List.pairwise_cons.mp hp with ⟨hhead, htail⟩
    by_cases hm2 : tokenLeLimit t2 t.limit = true
    · have hm1 : tokenLeLimit t1 t.limit = true := tokenLeLimit_mono h12 hm2
      simp only [selectTierPriceLoop, hm2, if_true, Option.some.injEq] at h
      exact ⟨t.pricePerMTok, by simp [selectTierPriceLoop, hm1], le_of_eq h⟩
    · simp only [selectTierPriceLoop, hm2, if_false, Bool.false_eq_true] at h
      by_cases hm1 : tokenLeLimit t1 t.limit = true
      · refine ⟨t.pricePerMTok, by simp [selectTierPriceLoop, hm1], ?_⟩
        obtain ⟨u, hu, hup, _⟩ := loop_mem h
        exact hup ▸ hhead u hu
      · simp only [selectTierPriceLoop, hm1, if_false, Bool.false_eq_true]
        exact ih htail h

theorem loop_le_last {tokens : ℚ} {ts : List PricingTier} {p : ℚ}
    (hp : ts.Pairwise (fun a b => a.pricePerMTok ≤ b.pricePerMTok))
    (h : selectTierPriceLoop tokens ts = some p) (hne : ts ≠ []) :
    p ≤ (ts.getLast hne).pricePerMTok := by
  induction ts with
  | nil => simp [selectTierPriceLoop] at h
  | cons t rest ih =>
    rcases List.pairwise_cons.mp hp with ⟨hhead, htail⟩
    by_cases hm : tokenLeLimit tokens t.limit = true
    · simp only [selectTierPriceLoop, hm, if_true, Option.some.injEq] at h
      subst h
      cases rest with
      | nil => simp [List.getLast]
      | cons r rs =>
        rw [List.getLast_cons (by simp)]
        exact hhead _ (List.getLast_mem (by simp))
    · simp only [selectTierPriceLoop, hm, if_false, Bool.false_eq_true] at h
      cases rest with
      | nil => simp [selectTierPriceLoop] at h
      | cons r rs =>
        rw [List.getLast_cons (by simp)]
        exact ih htail h (by simp)

theorem selectTierPrice_mem_or_zero (tokens : ℚ) (ts : List PricingTier) :
    (∃ u ∈ ts, selectTierPrice tokens ts = u.pricePerMTok) ∨ selectTierPrice tokens ts = 0 := by
  cases ts with
  | nil =>
    right
    simp [selectTierPrice, selectTierPriceLoop]
  | cons t rest =>
    left
    by_cases ht : tokens ≤ 0
    · exact ⟨t, by simp, by simp [selectTierPrice, ht]⟩
    · simp only [selectTierPrice, ht, if_false]
      cases hloop : selectTierPriceLoop tokens (t :: rest) with
      | some p =>
        obtain ⟨u, hu, hup, _⟩ := loop_mem hloop
        exact ⟨u, hu, hup.symm⟩
      | none =>
        refine ⟨(t :: rest).getLast (by simp), List.getLast_mem (by simp), ?_⟩
        rw [List.getLast?_eq_getLast _ (by simp)]
        simp

theorem selectTierPrice_nonneg {tokens : ℚ} {ts : List PricingTier}
    (h0 : ∀ u ∈ ts, 0 ≤ u.pricePerMTok) : 0 ≤ selectTierPrice tokens ts := by
  rcases selectTierPrice_mem_or_zero tokens ts with ⟨u, hu, he⟩ | he
  · exact he ▸ h0 u hu
  · rw [he]

theorem selectTierPrice_mono {t1 t2 : ℚ} (h1 : 0 < t1) (h12 : t1 ≤ t2)
    {ts : List PricingTier}
    (hp : ts.Pairwise (fun a b => a.pricePerMTok ≤ b.pricePerMTok)) :
    selectTierPrice t1 ts ≤ selectTierPrice t2 ts := by
  have h2 : 0 < t2 := lt_of_lt_of_le h1 h12
  simp only [selectTierPrice, not_le.mpr h1, not_le.mpr h2, if_false]
  cases hloop2 : selectTierPriceLoop t2 ts with
  | some p2 =>
    obtain ⟨p1, hp1, hle⟩ := loop_price_mono h12 hp hloop2
    rw [hp1]
    exact hle
  | none =>
    cases hloop1 : selectTierPriceLoop t1 ts with
    | some p1 =>
      cases ts with
      | nil => simp [selectTierPriceLoop] at hloop1
      | cons t rest =>
        rw [List.getLast?_eq_getLast _ (by simp)]
        simpa using loop_le_last hp hloop1 (by simp)
    | none => exact le_refl _

theorem loop_isSome_of_exists {tokens : ℚ} {ts : List PricingTier}
    (h : ∃ u ∈ ts, tokenLeLimit tokens u.limit = true) :
    (selectTierPriceLoop tokens ts).isSome = true := by
  induction ts with
  | nil => simp at h
  | cons t rest ih =>
    by_cases hm : tokenLeLimit tokens t.limit = true
    · simp [selectTierPriceLoop, hm]
    · obtain ⟨u, hu, hul⟩ := h
      rcases List.mem_cons.mp hu with hu | hu
      · exact absurd (hu ▸ hul) hm
      · simp only [selectTierPriceLoop, hm, if_false, Bool.false_eq_true]
        exact ih ⟨u, hu, hul⟩

/-- Claim C2 (amended): for a non-empty tier list, `selectTierPrice` returns
the price of the first tier when `tokens ≤ 0`, else the price of the first
tier in list order whose limit is `≥ tokens`, else the price of the last
tier; and for a
tier table sorted in ascending limit order with non-negative limits whose
final tier has limit `+∞`, for any `tokens ≥ 0` the fallback branch is never
taken and the returned price is that of a matching tier of minimal limit. -/
theorem selectTierPrice_contract (tokens : ℚ) (tiers : List PricingTier) (hne : tiers ≠ []) :
    (tokens ≤ 0 → selectTierPrice tokens tiers = (tiers.head hne).pricePerMTok) ∧
    (0 < tokens →
      selectTierPrice tokens tiers =
        match tiers.find? (fun u => tokenLeLimit tokens u.limit) with
        | some u => u.pricePerMTok
        | none => (tiers.getLast hne).pricePerMTok) ∧
    (tiers.Pairwise (fun a b => limitLe a.limit b.limit = true) →
     (∀ u ∈ tiers, tokenLeLimit 0 u.limit = true) →
     (tiers.getLast hne).limit = TierLimit.inf →
     0 ≤ tokens →
       (0 < tokens → (selectTierPriceLoop tokens tiers).isSome = true) ∧
       ∃ u ∈ tiers, tokenLeLimit tokens u.limit = true ∧
         selectTierPrice tokens tiers = u.pricePerMTok ∧
         ∀ v ∈ tiers, tokenLeLimit tokens v.limit = true → limitLe u.limit v.limit = true) := by
  refine ⟨?_, ?_, ?_⟩
  · intro h
    cases tiers with
    | nil => exact absurd rfl hne
    | cons t rest => simp [selectTierPrice, h]
  · intro h
    rw [selectTierPrice, if_neg (not_le.mpr h), loop_eq_findQ]
    cases hf : tiers.find? (fun u => tokenLeLimit tokens u.limit) with
    | some u => rfl
    | none => simp [List.getLast?_eq_getLast _ hne]
  · intro hs hnn hlast h0
    have hlastmem : tiers.getLast hne ∈ tiers := List.getLast_mem hne
    have hlastmatch : tokenLeLimit tokens (tiers.getLast hne).limit = true := by
      rw [hlast]; rfl
    have hsome : 0 < tokens → (selectTierPriceLoop tokens tiers).isSome = true := by
      intro _
      exact loop_isSome_of_exists ⟨tiers.getLast hne, hlastmem, hlastmatch⟩
    refine ⟨hsome, ?_⟩
    rcases eq_or_lt_of_le h0 with heq | hpos
    · cases tiers with
      | nil => exact absurd rfl hne
      | cons t rest =>
        rcases List.pairwise_cons.mp hs with ⟨hhead, _⟩
        refine ⟨t, by simp, ?_, ?_, ?_⟩
        · exact heq ▸ hnn t (by simp)
        · simp [selectTierPrice, ← heq]
        · intro v hv _
          rcases List.mem_cons.mp hv with hv | hv
          · subst hv; exact limitLe_refl _
          · exact hhead v hv
    · cases hloop : selectTierPriceLoop tokens tiers with
      | none =>
        exfalso
        have hcontra := hsome hpos
        rw [hloop] at hcontra
        simp at hcontra
      | some p =>
        obtain ⟨u, hu, hup, hul, hmin⟩ := loop_minimal hs hloop
        refine ⟨u, hu, hul, ?_, hmin⟩
        simp [selectTierPrice, not_le.mpr hpos, hloop, hup]

/-- The unsorted table refuting the minimal-limit clause of claim C2 as
stated: the final tier has an infinite limit, yet at `tokens = 30` the
returned price (first match, limit 100) is not that of the minimal matching
limit (50). -/
def c2BadTiers : List PricingTier := [⟨.fin 100, 1⟩, ⟨.fin 50, 2⟩, ⟨.inf, 3⟩]

theorem selectTierPrice_minimal_cex :
    (c2BadTiers.getLast (by simp [c2BadTiers])).limit = TierLimit.inf ∧
    (0 : ℚ) ≤ 30 ∧
    selectTierPrice 30 c2BadTiers = 1 ∧
    ¬ ∃ u ∈ c2BadTiers, tokenLeLimit 30 u.limit = true ∧
        selectTierPrice 30 c2BadTiers = u.pricePerMTok ∧
        ∀ v ∈ c2BadTiers, tokenLeLimit 30 v.limit = true → limitLe u.limit v.limit = true := by
  refine ⟨rfl, by norm_num, by decide, ?_⟩
  decide

/-- The sorted two-tier table used to exercise `selectTierPrice_contract`. -/
def c2wTiers : List PricingTier := [⟨.fin 100, 1⟩, ⟨.inf, 2⟩]

theorem selectTierPrice_contract_witness :
    ∃ u ∈ c2wTiers, tokenLeLimit 150 u.limit = true ∧
      selectTierPrice 150 c2wTiers = u.pricePerMTok ∧
      ∀ v ∈ c2wTiers, tokenLeLimit 150 v.limit = true → limitLe u.limit v.limit = true :=
  ((selectTierPrice_contract 150 c2wTiers (by simp [c2wTiers])).2.2
    (by decide) (by decide) (by decide) (by norm_num)).2

/-- Claim C3 (amended): `tokensToCost` is `0` exactly at `tokens = 0` (the JS
guard is a truthiness test, not a `≤ 0` test) and otherwise scales the
selected tier price by `tokens / 1e6`; in particular the claimed clauses for
`tokens = 0` and `tokens > 0` hold. -/
theorem tokensToCost_spec (tokens : ℚ) (tiers : List PricingTier) :
    (tokens = 0 → tokensToCost tokens tiers = 0) ∧
    (tokens ≠ 0 → tokensToCost tokens tiers = (tokens / 1000000) * selectTierPrice tokens tiers) := by
  constructor <;> intro h <;> simp [tokensToCost, h]

theorem tokensToCost_nonpos_cex :
    (-1 : ℚ) ≤ 0 ∧ tokensToCost (-1) [⟨TierLimit.inf, 1.25⟩] ≠ 0 := by
  constructor
  · norm_num
  · norm_num [tokensToCost, selectTierPrice, selectTierPriceLoop, tokenLeLimit]

theorem tokensToCost_spec_witness :
    tokensToCost 0 [⟨TierLimit.inf, (7 : ℚ)⟩] = 0 ∧
    tokensToCost 2000000 [⟨TierLimit.inf, (7 : ℚ)⟩] =
      (2000000 / 1000000) * selectTierPrice 2000000 [⟨TierLimit.inf, (7 : ℚ)⟩] :=
  ⟨(tokensToCost_spec 0 _).1 rfl, (tokensToCost_spec 2000000 _).2 (by norm_num)⟩

/-- Claim C4 (amended): `tokensToCost` is monotone non-decreasing in `tokens`
for tier tables whose prices are non-negative and non-decreasing along the
table (as every table of `MODEL_PRICING` is); non-negative prices alone do
not suffice. -/
theorem tokensToCost_mono (tiers : List PricingTier) (t1 t2 : ℚ)
    (hnn : ∀ u ∈ tiers, 0 ≤ u.pricePerMTok)
    (hpp : tiers.Pairwise (fun a b => a.pricePerMTok ≤ b.pricePerMTok))
    (h12 : t1 ≤ t2) :
    tokensToCost t1 tiers ≤ tokensToCost t2 tiers := by
  have hsel1 : 0 ≤ selectTierPrice t1 tiers := selectTierPrice_nonneg hnn
  have hsel2 : 0 ≤ selectTierPrice t2 tiers := selectTierPrice_nonneg hnn
  rcases lt_trichotomy t1 0 with hneg | hzero | hpos
  · have hcost1 : tokensToCost t1 tiers ≤ 0 := by
      rw [tokensToCost, if_neg (ne_of_lt hneg)]
      have ha : t1 / 1000000 ≤ 0 := by linarith
      have h := mul_le_mul_of_nonneg_right ha hsel1
      simpa using h
    rcases lt_trichotomy t2 0 with h2neg | h2zero | h2pos
    · have hsame : selectTierPrice t1 tiers = selectTierPrice t2 tiers := by
        simp [selectTierPrice, le_of_lt hneg, le_of_lt h2neg]
      rw [tokensToCost, tokensToCost, if_neg (ne_of_lt hneg), if_neg (ne_of_lt h2neg), hsame]
      exact mul_le_mul_of_nonneg_right (by linarith) (hsame ▸ hsel1)
    · rw [show tokensToCost t2 tiers = 0 by simp [tokensToCost, h2zero]]
      exact hcost1
    · have hcost2 : 0 ≤ tokensToCost t2 tiers := by
        rw [tokensToCost, if_neg (ne_of_gt h2pos)]
        exact mul_nonneg (by linarith) hsel2
      linarith
  · rw [show tokensToCost t1 tiers = 0 by simp [tokensToCost, hzero]]
    rcases eq_or_lt_of_le (show (0 : ℚ) ≤ t2 from hzero ▸ h12) with h2zero | h2pos
    · rw [show tokensToCost t2 tiers = 0 by simp [tokensToCost, ← h2zero]]
    · rw [tokensToCost, if_neg (ne_of_gt h2pos)]
      exact mul_nonneg (by linarith) hsel2
  · have h2pos : 0 < t2 := lt_of_lt_of_le hpos h12
    rw [tokensToCost, tokensToCost, if_neg (ne_of_gt hpos), if_neg (ne_of_gt h2pos)]
    exact mul_le_mul (by linarith) (selectTierPrice_mono hpos h12 hpp) hsel1 (by linarith)

/-- The table with decreasing prices refuting claim C4 as stated: prices are
non-negative, yet the cost drops when the token count crosses the first tier
boundary into the cheaper tier. -/
def c4Tiers : List PricingTier := [⟨.fin 100, 10⟩, ⟨.inf, 1⟩]

theorem tokensToCost_mono_cex :
    (∀ u ∈ c4Tiers, 0 ≤ u.pricePerMTok) ∧ (100 : ℚ) ≤ 101 ∧
    ¬ tokensToCost 100 c4Tiers ≤ tokensToCost 101 c4Tiers := by
  refine ⟨by decide, by norm_num, ?_⟩
  norm_num [tokensToCost, selectTierPrice, selectTierPriceLoop, tokenLeLimit, c4Tiers]

/-- The ascending-price table used to exercise `tokensToCost_mono`. -/
def c4wTiers : List PricingTier := [⟨.fin 100, 2⟩, ⟨.inf, 3⟩]

theorem tokensToCost_mono_witness :
    (∀ u ∈ c4wTiers, 0 ≤ u.pricePerMTok) ∧ (50 : ℚ) ≤ 200 ∧
    tokensToCost 50 c4wTiers ≤ tokensToCost 200 c4wTiers :=
  ⟨by decide, by norm_num,
    tokensToCost_mono c4wTiers 50 200 (by decide) (by decide) (by norm_num)⟩

/-! ## Cost-computation and aggregation claims -/

theorem computeUsageCost_fst (usage : RawUsage) (modelId : String) :
    (computeUsageCost usage modelId).1 =
      (if (extractUsageStats usage).cacheHitTokens ≠ 0 ∨ (extractUsageStats usage).cacheMissTokens ≠ 0 ∨
          (extractUsageStats usage).cacheWriteTokens ≠ 0 then
        tokensToCost (extractUsageStats usage).cacheHitTokens (getPricingForModel (some modelId)).cacheRead +
          tokensToCost (extractUsageStats usage).cacheMissTokens (getPricingForModel (some modelId)).prompt +
          tokensToCost (extractUsageStats usage).cacheWriteTokens (getPricingForModel (some modelId)).cacheWrite
      else
        tokensToCost (extractUsageStats usage).promptTokens (getPricingForModel (some modelId)).prompt) +
      tokensToCost (extractUsageStats usage).completionTokens (getPricingForModel (some modelId)).completion := rfl

/-- The record of the claim C1 scenario: `gpt-5.1`, 1000 prompt tokens, 500
completion tokens, no cache fields. -/
def c1Event : CodeEvent :=
  { date := "2026-01-01", project := "myproj", model := some "gpt-5.1"
    usage := ⟨some 1000, some 500, none, none, none, none⟩ }

/-- Claim C1: `computeUsageCost` prices an event through the cache branch
(cache-read-priced hits, prompt-priced misses, cache-write-priced writes,
plain prompt count ignored) when any cache count is non-zero, else through
the plain prompt branch, always adding completion-priced output; and folding
the two-record `gpt-5.1` scenario yields 2 requests and cost 0.0125 in
`modelTotals`. -/
theorem computeUsageCost_prices_events :
    (∀ (usage : RawUsage) (modelId : String),
      (computeUsageCost usage modelId).2 = extractUsageStats usage ∧
      ((extractUsageStats usage).cacheHitTokens ≠ 0 ∨ (extractUsageStats usage).cacheMissTokens ≠ 0 ∨
          (extractUsageStats usage).cacheWriteTokens ≠ 0 →
        (computeUsageCost usage modelId).1 =
          tokensToCost (extractUsageStats usage).cacheHitTokens (getPricingForModel (some modelId)).cacheRead +
            tokensToCost (extractUsageStats usage).cacheMissTokens (getPricingForModel (some modelId)).prompt +
            tokensToCost (extractUsageStats usage).cacheWriteTokens (getPricingForModel (some modelId)).cacheWrite +
            tokensToCost (extractUsageStats usage).completionTokens (getPricingForModel (some modelId)).completion) ∧
      ((extractUsageStats usage).cacheHitTokens = 0 ∧ (extractUsageStats usage).cacheMissTokens = 0 ∧
          (extractUsageStats usage).cacheWriteTokens = 0 →
        (computeUsageCost usage modelId).1 =
          tokensToCost (extractUsageStats usage).promptTokens (getPricingForModel (some modelId)).prompt +
            tokensToCost (extractUsageStats usage).completionTokens (getPricingForModel (some modelId)).completion)) ∧
    (List.lookup "gpt-5.1" ([c1Event, c1Event].foldl (foldCodeEvent "gpt-5.1") initAggState).modelTotals).map
      SummaryStats.requests = some 2 ∧
    (List.lookup "gpt-5.1" ([c1Event, c1Event].foldl (foldCodeEvent "gpt-5.1") initAggState).modelTotals).map
      SummaryStats.cost = some 0.0125 := by
  refine ⟨fun usage modelId => ⟨rfl, ?_, ?_⟩, ?_, ?_⟩
  · intro h
    rw [computeUsageCost_fst, if_pos h]
  · intro h
    rw [computeUsageCost_fst, if_neg (by simp [h.1, h.2.1, h.2.2])]
  · norm_num [c1Event, foldCodeEvent, usedModel, computeUsageCost, extractUsageStats,
      getPricingForModel, MODEL_PRICING, DEFAULT_MODEL_ID, createPricing, tokensToCost,
      selectTierPrice, selectTierPriceLoop, tokenLeLimit, upsert, addSummary, initSummary,
      initAggState, List.lookup]
  · norm_num [c1Event, foldCodeEvent, usedModel, computeUsageCost, extractUsageStats,
      getPricingForModel, MODEL_PRICING, DEFAULT_MODEL_ID, createPricing, tokensToCost,
      selectTierPrice, selectTierPriceLoop, tokenLeLimit, upsert, addSummary, initSummary,
      initAggState, List.lookup]

/-- The cache-bearing record used to exercise `computeUsageCost_prices_events`. -/
def c1wUsage : RawUsage := ⟨some 10, some 5, none, some 3, none, none⟩

theorem computeUsageCost_prices_events_witness :
    ((extractUsageStats c1wUsage).cacheHitTokens ≠ 0 ∨ (extractUsageStats c1wUsage).cacheMissTokens ≠ 0 ∨
      (extractUsageStats c1wUsage).cacheWriteTokens ≠ 0) ∧
    (computeUsageCost c1wUsage "gpt-5.1").1 =
      tokensToCost (extractUsageStats c1wUsage).cacheHitTokens (getPricingForModel (some "gpt-5.1")).cacheRead +
        tokensToCost (extractUsageStats c1wUsage).cacheMissTokens (getPricingForModel (some "gpt-5.1")).prompt +
        tokensToCost (extractUsageStats c1wUsage).cacheWriteTokens (getPricingForModel (some "gpt-5.1")).cacheWrite +
        tokensToCost (extractUsageStats c1wUsage).completionTokens (getPricingForModel (some "gpt-5.1")).completion :=
  ⟨by norm_num [extractUsageStats, c1wUsage],
    (computeUsageCost_prices_events.1 c1wUsage "gpt-5.1").2.1
      (by norm_num [extractUsageStats, c1wUsage])⟩

/-- Claim C10: when `prompt_cache_miss_tokens` is absent, the cache-miss
count is `max(promptTokens - cacheHitTokens, 0)` if cache hits are present
and positive, else `0`; such hit-free records with no cache-write count are
priced through the plain prompt branch. -/
theorem cacheMiss_derivation (usage : RawUsage) (modelId : String)
    (hmiss : usage.prompt_cache_miss_tokens = none) :
    (∀ h, usage.prompt_cache_hit_tokens = some h → 0 < h →
      (extractUsageStats usage).cacheMissTokens =
        max ((extractUsageStats usage).promptTokens - (extractUsageStats usage).cacheHitTokens) 0) ∧
    (usage.prompt_cache_hit_tokens = none ∨ usage.prompt_cache_hit_tokens = some 0 →
      (extractUsageStats usage).cacheMissTokens = 0) ∧
    (usage.cache_creation_input_tokens = none →
     usage.prompt_cache_hit_tokens = none ∨ usage.prompt_cache_hit_tokens = some 0 →
      (computeUsageCost usage modelId).1 =
        tokensToCost (extractUsageStats usage).promptTokens (getPricingForModel (some modelId)).prompt +
          tokensToCost (extractUsageStats usage).completionTokens (getPricingForModel (some modelId)).completion) := by
  refine ⟨?_, ?_, ?_⟩
  · intro h hh hpos
    simp [extractUsageStats, hmiss, hh, hpos]
  · intro hh
    rcases hh with h | h <;> simp [extractUsageStats, hmiss, h]
  · intro hw hh
    have hhit : (extractUsageStats usage).cacheHitTokens = 0 := by
      rcases hh with h | h <;> simp [extractUsageStats, h]
    have hmiss0 : (extractUsageStats usage).cacheMissTokens = 0 := by
      rcases hh with h | h <;> simp [extractUsageStats, hmiss, h]
    have hwr : (extractUsageStats usage).cacheWriteTokens = 0 := by
      simp [extractUsageStats, hw]
    rw [computeUsageCost_fst, if_neg (by simp [hhit, hmiss0, hwr])]

/-- The record used to exercise `cacheMiss_derivation`: 1000 prompt tokens,
300 cache hits, no explicit miss count. -/
def c10Usage : RawUsage := ⟨some 1000, some 500, none, some 300, none, none⟩

theorem cacheMiss_derivation_witness :
    c10Usage.prompt_cache_miss_tokens = none ∧
    (extractUsageStats c10Usage).cacheMissTokens =
      max ((extractUsageStats c10Usage).promptTokens - (extractUsageStats c10Usage).cacheHitTokens) 0 :=
  ⟨rfl, (cacheMiss_derivation c10Usage "gpt-5.1" rfl).1 300 rfl (by norm_num)⟩

theorem sumMapQ_nil {α : Type} (g : α → ℚ) : sumMapQ g [] = 0 := rfl

theorem sumMapQ_cons {α : Type} (g : α → ℚ) (k : String) (v : α) (rest : StrMap α) :
    sumMapQ g ((k, v) :: rest) = g v + sumMapQ g rest := by
  simp [sumMapQ]

theorem sumMapQ_upsert {α : Type} (g : α → ℚ) (k : String) (f : α → α) (d : α) (c : ℚ)
    (hf : ∀ v, g (f v) = g v + c) (hd : g (f d) = c) (m : StrMap α) :
    sumMapQ g (upsert k f d m) = sumMapQ g m + c := by
  induction m with
  | nil => simp [upsert, sumMapQ_cons, sumMapQ_nil, hd]
  | cons p rest ih =>
    obtain ⟨k₁, v⟩ := p
    by_cases hk : k₁ = k
    · subst hk
      simp [upsert, sumMapQ_cons, hf v]
      ring
    · simp only [upsert, if_neg hk, sumMapQ_cons, ih]
      ring

theorem upsert_cell_sum (k : String) (cost : ℚ)
    (add : DailyModelStats → DailyModelStats)
    (hadd : ∀ s, (add s).cost = s.cost + cost)
    (mm : StrMap DailyModelStats) :
    sumMapQ (fun s => s.cost) (upsert k add initDailyModelStats mm) =
      sumMapQ (fun s => s.cost) mm + cost := by
  apply sumMapQ_upsert
  · exact hadd
  · rw [hadd]
    simp [initDailyModelStats]

theorem upsert_project_sum (proj mdl : String) (cost : ℚ)
    (add : DailyModelStats → DailyModelStats)
    (hadd : ∀ s, (add s).cost = s.cost + cost)
    (pm : StrMap (StrMap DailyModelStats)) :
    sumMapQ (fun mm => sumMapQ (fun s => s.cost) mm)
        (upsert proj (fun mm => upsert mdl add initDailyModelStats mm) [] pm) =
      sumMapQ (fun mm => sumMapQ (fun s => s.cost) mm) pm + cost := by
  apply sumMapQ_upsert
  · intro mm
    exact upsert_cell_sum mdl cost add hadd mm
  · have h := upsert_cell_sum mdl cost add hadd []
    rwa [sumMapQ_nil, zero_add] at h

theorem upsert_daily_sum (date proj mdl : String) (cost : ℚ)
    (add : DailyModelStats → DailyModelStats)
    (hadd : ∀ s, (add s).cost = s.cost + cost)
    (dd : DailyData) :
    dailyCostSum
        (upsert date
          (fun pm => upsert proj (fun mm => upsert mdl add initDailyModelStats mm) [] pm)
          [] dd) =
      dailyCostSum dd + cost := by
  apply sumMapQ_upsert
  · intro pm
    exact upsert_project_sum proj mdl cost add hadd pm
  · have h := upsert_project_sum proj mdl cost add hadd []
    rwa [sumMapQ_nil, zero_add] at h

theorem foldCodeEvent_dailyCostSum (dm : String) (st : AggState) (ev : CodeEvent) :
    dailyCostSum (foldCodeEvent dm st ev).dailyData =
      dailyCostSum st.dailyData + (computeUsageCost ev.usage (usedModel dm ev.model)).1 := by
  exact upsert_daily_sum ev.date ev.project (usedModel dm ev.model)
    (computeUsageCost ev.usage (usedModel dm ev.model)).1
    (addDailyCode (computeUsageCost ev.usage (usedModel dm ev.model)).1
      (computeUsageCost ev.usage (usedModel dm ev.model)).2)
    (fun s => by simp [addDailyCode]) st.dailyData

theorem foldIdeEvent_dailyCostSum (dm : String) (st : AggState) (ev : IdeEvent) :
    dailyCostSum (foldIdeEvent dm st ev).dailyData =
      dailyCostSum st.dailyData +
        (computeUsageCost (ideRawUsage ev) (usedModel dm ev.inferredModel)).1 := by
  exact upsert_daily_sum ev.date ev.workspaceHash (usedModel dm ev.inferredModel)
    (computeUsageCost (ideRawUsage ev) (usedModel dm ev.inferredModel)).1
    (addDailyIde (computeUsageCost (ideRawUsage ev) (usedModel dm ev.inferredModel)).1
      (computeUsageCost (ideRawUsage ev) (usedModel dm ev.inferredModel)).2)
    (fun s => by simp [addDailyIde]) st.dailyData

theorem foldCodeEvent_inv (dm : String) (st : AggState) (ev : CodeEvent)
    (h : dailyCostSum st.dailyData = st.grandTotal.cost) :
    dailyCostSum (foldCodeEvent dm st ev).dailyData = (foldCodeEvent dm st ev).grandTotal.cost := by
  rw [foldCodeEvent_dailyCostSum, h]
  rfl

theorem foldIdeEvent_inv (dm : String) (st : AggState) (ev : IdeEvent)
    (h : dailyCostSum st.dailyData = st.grandTotal.cost) :
    dailyCostSum (foldIdeEvent dm st ev).dailyData = (foldIdeEvent dm st ev).grandTotal.cost := by
  rw [foldIdeEvent_dailyCostSum, h]
  rfl

theorem foldl_inv {α : Type} (f : AggState → α → AggState)
    (hstep : ∀ st x, dailyCostSum st.dailyData = st.grandTotal.cost →
      dailyCostSum (f st x).dailyData = (f st x).grandTotal.cost) :
    ∀ (l : List α) (st : AggState), dailyCostSum st.dailyData = st.grandTotal.cost →
      dailyCostSum (l.foldl f st).dailyData = (l.foldl f st).grandTotal.cost := by
  intro l
  induction l with
  | nil => intro st h; simpa using h
  | cons x xs ih =>
    intro st h
    simpa [List.foldl_cons] using ih (f st x) (hstep st x h)

/-- Claim C5: for every ingested event set, from either source, the sum of
`cost` over every `(date, project, model)` cell of `dailyData` in the
resulting `AnalysisData` equals `grandTotal.cost` exactly, and each
single-event fold preserves that equality. -/
theorem dailyCost_sum_eq_grandTotal (dm : String) (ws : Option (StrMap WorkspaceMapping)) :
    (∀ evs : List CodeEvent,
      dailyCostSum (finalizeAnalysis dm (evs.foldl (foldCodeEvent dm) initAggState) none).dailyData =
        (finalizeAnalysis dm (evs.foldl (foldCodeEvent dm) initAggState) none).grandTotal.cost) ∧
    (∀ evs : List IdeEvent,
      dailyCostSum (finalizeAnalysis dm (evs.foldl (foldIdeEvent dm) initAggState) ws).dailyData =
        (finalizeAnalysis dm (evs.foldl (foldIdeEvent dm) initAggState) ws).grandTotal.cost) ∧
    (∀ (st : AggState) (ev : CodeEvent),
      dailyCostSum st.dailyData = st.grandTotal.cost →
      dailyCostSum (foldCodeEvent dm st ev).dailyData = (foldCodeEvent dm st ev).grandTotal.cost) ∧
    (∀ (st : AggState) (ev : IdeEvent),
      dailyCostSum st.dailyData = st.grandTotal.cost →
      dailyCostSum (foldIdeEvent dm st ev).dailyData = (foldIdeEvent dm st ev).grandTotal.cost) := by
  refine ⟨?_, ?_, foldCodeEvent_inv dm, foldIdeEvent_inv dm⟩
  · intro evs
    show dailyCostSum (evs.foldl (foldCodeEvent dm) initAggState).dailyData =
      (evs.foldl (foldCodeEvent dm) initAggState).grandTotal.cost
    exact foldl_inv (foldCodeEvent dm) (foldCodeEvent_inv dm) evs initAggState rfl
  · intro evs
    show dailyCostSum (evs.foldl (foldIdeEvent dm) initAggState).dailyData =
      (evs.foldl (foldIdeEvent dm) initAggState).grandTotal.cost
    exact foldl_inv (foldIdeEvent dm) (foldIdeEvent_inv dm) evs initAggState rfl

/-- The record used to exercise `dailyCost_sum_eq_grandTotal`. -/
def c5Event : CodeEvent :=
  { date := "2026-02-03", project := "p", model := none
    usage := ⟨some 100, some 50, none, none, none, none⟩ }

theorem dailyCost_sum_eq_grandTotal_witness :
    dailyCostSum initAggState.dailyData = initAggState.grandTotal.cost ∧
    dailyCostSum (foldCodeEvent "gpt-5.1" initAggState c5Event).dailyData =
      (foldCodeEvent "gpt-5.1" initAggState c5Event).grandTotal.cost :=
  ⟨rfl, (dailyCost_sum_eq_grandTotal "gpt-5.1" none).2.2.1 initAggState c5Event rfl⟩

/-- Sum of per-event cache-hit tokens over a "code" event list. -/
def hitSum (evs : List CodeEvent) : ℚ :=
  (evs.map (fun ev => (eventStats ev).cacheHitTokens)).sum

/-- Sum of per-event cache-miss tokens over a "code" event list. -/
def missSum (evs : List CodeEvent) : ℚ :=
  (evs.map (fun ev => (eventStats ev).cacheMissTokens)).sum

/-- The `AnalysisData` a "code" load produces from a parsed event list. -/
def codeAnalysis (dm : String) (evs : List CodeEvent) : AnalysisData :=
  finalizeAnalysis dm (evs.foldl (foldCodeEvent dm) initAggState) none

theorem foldl_grand_hit (dm : String) (evs : List CodeEvent) :
    ∀ st : AggState,
      (evs.foldl (foldCodeEvent dm) st).grandTotal.cacheHitTokens =
        st.grandTotal.cacheHitTokens + (evs.map (fun ev => (eventStats ev).cacheHitTokens)).sum := by
  induction evs with
  | nil => intro st; simp
  | cons ev rest ih =>
    intro st
    rw [List.foldl_cons, ih]
    rw [show (foldCodeEvent dm st ev).grandTotal.cacheHitTokens =
      st.grandTotal.cacheHitTokens + (eventStats ev).cacheHitTokens from rfl]
    simp only [List.map_cons, List.sum_cons]
    ring

theorem foldl_grand_miss (dm : String) (evs : List CodeEvent) :
    ∀ st : AggState,
      (evs.foldl (foldCodeEvent dm) st).grandTotal.cacheMissTokens =
        st.grandTotal.cacheMissTokens + (evs.map (fun ev => (eventStats ev).cacheMissTokens)).sum := by
  induction evs with
  | nil => intro st; simp
  | cons ev rest ih =>
    intro st
    rw [List.foldl_cons, ih]
    rw [show (foldCodeEvent dm st ev).grandTotal.cacheMissTokens =
      st.grandTotal.cacheMissTokens + (eventStats ev).cacheMissTokens from rfl]
    simp only [List.map_cons, List.sum_cons]
    ring

/-- Claim C6 (amended): the cache-hit rate is `hit / (hit + miss)` over the
grand totals when that denominator is positive and `0` otherwise; it is `0`
when no cache tokens were recorded; and when every recorded cache token count
is non-negative it never exceeds `1` and lies in `(0, 1]` whenever any
cache-hit tokens were recorded (a miss-only load makes it `0`, refuting the
unqualified "(0,1] whenever any cache tokens were recorded"). -/
theorem cacheHitRate_formula (dm : String) (evs : List CodeEvent) :
    (codeAnalysis dm evs).cacheHitRate =
      (if 0 < hitSum evs + missSum evs then hitSum evs / (hitSum evs + missSum evs) else 0) ∧
    ((∀ ev ∈ evs, (eventStats ev).cacheHitTokens = 0 ∧ (eventStats ev).cacheMissTokens = 0) →
      (codeAnalysis dm evs).cacheHitRate = 0) ∧
    ((∀ ev ∈ evs, 0 ≤ (eventStats ev).cacheHitTokens ∧ 0 ≤ (eventStats ev).cacheMissTokens) →
      (codeAnalysis dm evs).cacheHitRate ≤ 1 ∧
      ((∃ ev ∈ evs, 0 < (eventStats ev).cacheHitTokens) →
        0 < (codeAnalysis dm evs).cacheHitRate ∧ (codeAnalysis dm evs).cacheHitRate ≤ 1)) := by
  have hH : (evs.foldl (foldCodeEvent dm) initAggState).grandTotal.cacheHitTokens = hitSum evs := by
    rw [foldl_grand_hit dm evs initAggState]
    simp [initAggState, hitSum]
  have hM : (evs.foldl (foldCodeEvent dm) initAggState).grandTotal.cacheMissTokens = missSum evs := by
    rw [foldl_grand_miss dm evs initAggState]
    simp [initAggState, missSum]
  have hrate : (codeAnalysis dm evs).cacheHitRate =
      (if 0 < hitSum evs + missSum evs then hitSum evs / (hitSum evs + missSum evs) else 0) := by
    show (if 0 < (evs.foldl (foldCodeEvent dm) initAggState).grandTotal.cacheHitTokens +
          (evs.foldl (foldCodeEvent dm) initAggState).grandTotal.cacheMissTokens then _ else _) = _
    rw [hH, hM]
  refine ⟨hrate, ?_, ?_⟩
  · intro hz
    have h0 : hitSum evs = 0 := by
      apply List.sum_eq_zero
      intro x hx
      obtain ⟨ev, hev, rfl⟩ := List.mem_map.mp hx
      exact (hz ev hev).1
    have m0 : missSum evs = 0 := by
      apply List.sum_eq_zero
      intro x hx
      obtain ⟨ev, hev, rfl⟩ := List.mem_map.mp hx
      exact (hz ev hev).2
    rw [hrate, h0, m0]
    norm_num
  · intro hnn
    have hH0 : 0 ≤ hitSum evs := by
      apply List.sum_nonneg
      intro x hx
      obtain ⟨ev, hev, rfl⟩ := List.mem_map.mp hx
      exact (hnn ev hev).1
    have hM0 : 0 ≤ missSum evs := by
      apply List.sum_nonneg
      intro x hx
      obtain ⟨ev, hev, rfl⟩ := List.mem_map.mp hx
      exact (hnn ev hev).2
    have hle1 : (codeAnalysis dm evs).cacheHitRate ≤ 1 := by
      rw [hrate]
      split_ifs with hpos
      · rw [div_le_one hpos]
        linarith
      · norm_num
    refine ⟨hle1, ?_⟩
    rintro ⟨ev, hev, hpos⟩
    have hHpos : 0 < hitSum evs := by
      have hmem : (eventStats ev).cacheHitTokens ∈
          evs.map (fun e => (eventStats e).cacheHitTokens) := List.mem_map_of_mem _ hev
      have hle := List.single_le_sum
        (l := evs.map (fun e => (eventStats e).cacheHitTokens))
        (by intro x hx
            obtain ⟨e, he, rfl⟩ := List.mem_map.mp hx
            exact (hnn e he).1)
        _ hmem
      have : (eventStats ev).cacheHitTokens ≤ hitSum evs := hle
      linarith
    have hdenom : 0 < hitSum evs + missSum evs := by linarith
    rw [hrate, if_pos hdenom]
    exact ⟨div_pos hHpos hdenom, (div_le_one hdenom).mpr (by linarith)⟩

/-- The miss-only record refuting claim C6 as stated: 1000 cache-miss tokens
are recorded, yet the resulting cache-hit rate is exactly 0, not in (0,1]. -/
def c6Event : CodeEvent :=
  { date := "2026-01-01", project := "p", model := some "gpt-5.1"
    usage := ⟨none, none, none, none, some 1000, none⟩ }

theorem cacheHitRate_cex :
    (eventStats c6Event).cacheMissTokens = 1000 ∧
    (codeAnalysis "gpt-5.1" [c6Event]).cacheHitRate = 0 ∧
    ¬ 0 < (codeAnalysis "gpt-5.1" [c6Event]).cacheHitRate := by
  refine ⟨by norm_num [eventStats, extractUsageStats, c6Event], ?_, ?_⟩ <;>
    norm_num [codeAnalysis, finalizeAnalysis, foldCodeEvent, usedModel, computeUsageCost,
      extractUsageStats, c6Event, initAggState]

/-- The cache-hit-bearing record used to exercise `cacheHitRate_formula`. -/
def c6wEvent : CodeEvent :=
  { date := "2026-01-01", project := "p", model := some "gpt-5.1"
    usage := ⟨some 100, some 10, none, some 40, none, none⟩ }

theorem cacheHitRate_formula_witness :
    (∀ ev ∈ [c6wEvent], 0 ≤ (eventStats ev).cacheHitTokens ∧ 0 ≤ (eventStats ev).cacheMissTokens) ∧
    (0 < (codeAnalysis "gpt-5.1" [c6wEvent]).cacheHitRate ∧
      (codeAnalysis "gpt-5.1" [c6wEvent]).cacheHitRate ≤ 1) := by
  have hnn : ∀ ev ∈ [c6wEvent], 0 ≤ (eventStats ev).cacheHitTokens ∧ 0 ≤ (eventStats ev).cacheMissTokens := by
    intro ev hev
    simp only [List.mem_singleton] at hev
    subst hev
    norm_num [eventStats, extractUsageStats, c6wEvent]
  refine ⟨hnn, ((cacheHitRate_formula "gpt-5.1" [c6wEvent]).2.2 hnn).2 ?_⟩
  exact ⟨c6wEvent, by simp, by norm_num [eventStats, extractUsageStats, c6wEvent]⟩

/-! ## Ingestion resilience and determinism -/

/-- Claim C8: a "code" line that fails to parse, lacks a usage payload, or
lacks a valid timestamp leaves the accumulators untouched and does not stop
later lines: folding a file equals folding only its well-formed lines, and
deleting a bad line anywhere leaves the result unchanged. -/
theorem codeLine_skip_resilience (dm : String) (minDate : Option String) (project : String) :
    (∀ (st : AggState) (lines : List CodeLine),
      lines.foldl (stepLine dm minDate project) st =
        (lines.filter (fun l => (parseLine project l).isSome)).foldl (stepLine dm minDate project) st) ∧
    (∀ (st : AggState) (pre post : List CodeLine) (bad : CodeLine),
      parseLine project bad = none →
      (pre ++ bad :: post).foldl (stepLine dm minDate project) st =
        (pre ++ post).foldl (stepLine dm minDate project) st) := by
  constructor
  · intro st lines
    induction lines generalizing st with
    | nil => rfl
    | cons l ls ih =>
      by_cases hp : (parseLine project l).isSome = true
      · rw [List.filter_cons_of_pos (p := fun l => (parseLine project l).isSome) hp,
          List.foldl_cons, List.foldl_cons]
        exact ih _
      · have hnone : parseLine project l = none := by
          cases h : parseLine project l with
          | none => rfl
          | some ev => rw [h] at hp; simp at hp
        have hstep : stepLine dm minDate project st l = st := by
          simp [stepLine, lineToEvent, hnone]
        rw [List.filter_cons_of_neg (p := fun l => (parseLine project l).isSome) (by simp [hp]),
          List.foldl_cons, hstep]
        exact ih st
  · intro st pre post bad h
    have hstep : ∀ s : AggState, stepLine dm minDate project s bad = s := fun s => by
      simp [stepLine, lineToEvent, h]
    rw [List.foldl_append, List.foldl_append, List.foldl_cons, hstep]

theorem codeLine_skip_resilience_witness :
    parseLine "p" CodeLine.malformed = none ∧
    ([CodeLine.malformed, CodeLine.record (some ⟨some 5, some 5, none, none, none, none⟩)
        (some "gpt-5.1") (some (some "2026-01-01"))]).foldl (stepLine "gpt-5.1" none "p") initAggState =
      ([CodeLine.record (some ⟨some 5, some 5, none, none, none, none⟩)
        (some "gpt-5.1") (some (some "2026-01-01"))]).foldl (stepLine "gpt-5.1" none "p") initAggState :=
  ⟨rfl,
    (codeLine_skip_resilience "gpt-5.1" none "p").2 initAggState []
      [CodeLine.record (some ⟨some 5, some 5, none, none, none, none⟩)
        (some "gpt-5.1") (some (some "2026-01-01"))]
      CodeLine.malformed rfl⟩

theorem foldRel_det {α : Type} (f : AggState → α → AggState) :
    ∀ {st : AggState} {xs : List α} {o1 o2 : AggState},
      FoldRel f st xs o1 → FoldRel f st xs o2 → o1 = o2 := by
  intro st xs o1 o2 h1 h2
  induction h1 generalizing o2 with
  | nil st => cases h2; rfl
  | cons st x xs out h ih =>
    cases h2 with
    | cons _ _ _ _ h2' => exact ih h2'

theorem foldRel_total {α : Type} (f : AggState → α → AggState) :
    ∀ (xs : List α) (st : AggState), FoldRel f st xs (xs.foldl f st) := by
  intro xs
  induction xs with
  | nil => intro st; exact FoldRel.nil st
  | cons x rest ih => intro st; exact FoldRel.cons st x rest _ (ih (f st x))

theorem codeLoadRel_det (dm : String) (minDate : Option String) :
    ∀ {st : AggState} {files : List CodeFile} {o1 o2 : AggState},
      CodeLoadRel dm minDate st files o1 → CodeLoadRel dm minDate st files o2 → o1 = o2 := by
  intro st files o1 o2 h1 h2
  induction h1 generalizing o2 with
  | nil st => cases h2; rfl
  | cons st f fs mid out hf hrest ih =>
    cases h2 with
    | cons _ _ _ mid2 _ hf2 hrest2 =>
      have hmid : mid = mid2 := foldRel_det _ hf hf2
      subst hmid
      exact ih hrest2

theorem codeLoadRel_total (dm : String) (minDate : Option String) :
    ∀ (files : List CodeFile) (st : AggState),
      CodeLoadRel dm minDate st files (loadCodeAgg dm minDate files st) := by
  intro files
  induction files with
  | nil => intro st; exact CodeLoadRel.nil st
  | cons f fs ih =>
    intro st
    exact CodeLoadRel.cons st f fs _ _ (foldRel_total _ f.lines st) (ih _)

/-- Claim C9: the pipeline is a deterministic function of the discovered
files (with their per-file project tokens and line contents), the settings
default model, the date cutoff, and the workspace mappings: any two runs of
the aggregation loop over the same inputs produce the same `AnalysisData`,
for both sources, and the run relation is total (realised by the `foldl`
pipeline). -/
theorem load_deterministic (dm : String) (minDate : Option String) (files : List CodeFile)
    (ws : Option (StrMap WorkspaceMapping)) (ideEvs : List IdeEvent) :
    (∀ o1 o2 : AggState,
      CodeLoadRel dm minDate initAggState files o1 →
      CodeLoadRel dm minDate initAggState files o2 →
      finalizeAnalysis dm o1 none = finalizeAnalysis dm o2 none) ∧
    (∀ i1 i2 : AggState,
      FoldRel (foldIdeEvent dm) initAggState ideEvs i1 →
      FoldRel (foldIdeEvent dm) initAggState ideEvs i2 →
      finalizeAnalysis dm i1 ws = finalizeAnalysis dm i2 ws) ∧
    CodeLoadRel dm minDate initAggState files (loadCodeAgg dm minDate files initAggState) ∧
    FoldRel (foldIdeEvent dm) initAggState ideEvs (ideEvs.foldl (foldIdeEvent dm) initAggState) := by
  refine ⟨?_, ?_, codeLoadRel_total dm minDate files initAggState,
    foldRel_total (foldIdeEvent dm) ideEvs initAggState⟩
  · intro o1 o2 h1 h2
    rw [codeLoadRel_det dm minDate h1 h2]
  · intro i1 i2 h1 h2
    rw [foldRel_det (foldIdeEvent dm) h1 h2]

/-- The one-file input used to exercise `load_deterministic`. -/
def c9File : CodeFile := { project := "p", lines := [CodeLine.malformed] }

theorem load_deterministic_witness :
    finalizeAnalysis "gpt-5.1" (loadCodeAgg "gpt-5.1" none [c9File] initAggState) none =
      finalizeAnalysis "gpt-5.1" (loadCodeAgg "gpt-5.1" none [c9File] initAggState) none :=
  (load_deterministic "gpt-5.1" none [c9File] none []).1
    (loadCodeAgg "gpt-5.1" none [c9File] initAggState)
    (loadCodeAgg "gpt-5.1" none [c9File] initAggState)
    (CodeLoadRel.cons initAggState c9File [] _ _
      (FoldRel.cons initAggState CodeLine.malformed [] _ (FoldRel.nil _))
      (CodeLoadRel.nil _))
    ((load_deterministic "gpt-5.1" none [c9File] none []).2.2.1)

/-! ## Workspace-resolver claims -/

theorem compFrom_ne_nil : ∀ (rest acc : List String), ∀ c ∈ compFrom acc rest, c ≠ [] := by
  intro rest
  induction rest with
  | nil =>
    intro acc c hc
    simp only [compFrom, List.mem_singleton] at hc
    subst hc
    simp
  | cons next r ih =>
    intro acc c hc
    simp only [compFrom, List.mem_append, List.mem_map] at hc
    rcases hc with ⟨c₁, _, rfl⟩ | hc
    · simp
    · exact ih (acc ++ [next]) c hc

theorem candPaths_ne_nil (c : List (List String)) (cur : String) (hc : c ≠ []) :
    candPaths cur c ≠ [] := by
  cases c with
  | nil => exact absurd rfl hc
  | cons g gs => simp [candPaths]

theorem okPath_cons (fsys : String → Bool) (cur : String) (g : List String)
    (c : List (List String)) (hc : c ≠ []) :
    okPath fsys cur (g :: c) =
      if fsys (mkPath cur (joinDash g)) then okPath fsys (mkPath cur (joinDash g)) c else none := by
  have hcp := candPaths_ne_nil c (mkPath cur (joinDash g)) hc
  cases hl : candPaths (mkPath cur (joinDash g)) c with
  | nil => exact absurd hl hcp
  | cons x xs =>
    by_cases hf : fsys (mkPath cur (joinDash g)) = true
    · simp [okPath, candPaths, hl, hf]
    · simp [okPath, candPaths, hl, hf]

theorem filterMap_congr_mem {α β : Type} {f g : α → Option β} :
    ∀ l : List α, (∀ a ∈ l, f a = g a) → l.filterMap f = l.filterMap g := by
  intro l
  induction l with
  | nil => intro _; rfl
  | cons x xs ih =>
    intro h
    rw [List.filterMap_cons, List.filterMap_cons, h x (by simp),
      ih (fun a ha => h a (by simp [ha]))]

theorem filterMap_const_none {α β : Type} :
    ∀ l : List α, l.filterMap (fun _ => (none : Option β)) = [] := by
  intro l
  induction l with
  | nil => rfl
  | cons x xs ih => simp [List.filterMap_cons, ih]

theorem tryFrom_eq_firstOK (fsys : String → Bool) :
    ∀ (rest : List String) (cur : String) (acc : List String),
      tryFrom fsys cur acc rest = firstOK fsys cur (compFrom acc rest) := by
  intro rest
  induction rest with
  | nil =>
    intro cur acc
    by_cases hf : fsys (mkPath cur (joinDash acc)) = true
    · simp [tryFrom, firstOK, compFrom, okPath, candPaths, hf]
    · simp [tryFrom, firstOK, compFrom, okPath, candPaths, hf]
  | cons next r ih =>
    intro cur acc
    have hmap : List.filterMap (okPath fsys cur) ((compFrom [next] r).map (fun c => acc :: c)) =
        List.filterMap
          (fun c => if fsys (mkPath cur (joinDash acc)) then
            okPath fsys (mkPath cur (joinDash acc)) c else none)
          (compFrom [next] r) := by
      rw [List.filterMap_map]
      apply filterMap_congr_mem
      intro c hc
      exact okPath_cons fsys cur acc c (compFrom_ne_nil r [next] c hc)
    by_cases hf : fsys (mkPath cur (joinDash acc)) = true
    · have hfun : (fun c => if fsys (mkPath cur (joinDash acc)) = true then
          okPath fsys (mkPath cur (joinDash acc)) c else none) =
          (fun c => okPath fsys (mkPath cur (joinDash acc)) c) := by
        funext c
        rw [if_pos hf]
      have hL : tryFrom fsys cur acc (next :: r) =
          match tryFrom fsys (mkPath cur (joinDash acc)) [next] r with
          | some result => some result
          | none => tryFrom fsys cur (acc ++ [next]) r := by
        simp [tryFrom, hf]
      have hR : firstOK fsys cur (compFrom acc (next :: r)) =
          match firstOK fsys (mkPath cur (joinDash acc)) (compFrom [next] r) with
          | some result => some result
          | none => firstOK fsys cur (compFrom (acc ++ [next]) r) := by
        simp only [compFrom, firstOK, List.filterMap_append, hmap, hfun]
        cases hA : List.filterMap (okPath fsys (mkPath cur (joinDash acc))) (compFrom [next] r) with
        | nil => simp [hA]
        | cons a as => simp [hA]
      rw [hL, ih (mkPath cur (joinDash acc)) [next], ih cur (acc ++ [next]), hR]
    · have hfun : (fun c => if fsys (mkPath cur (joinDash acc)) = true then
          okPath fsys (mkPath cur (joinDash acc)) c else none) =
          (fun _ => (none : Option String)) := by
        funext c
        rw [if_neg hf]
      have hL : tryFrom fsys cur acc (next :: r) = tryFrom fsys cur (acc ++ [next]) r := by
        simp [tryFrom, hf]
      have hR : firstOK fsys cur (compFrom acc (next :: r)) =
          firstOK fsys cur (compFrom (acc ++ [next]) r) := by
        simp only [compFrom, firstOK, List.filterMap_append, hmap, hfun, filterMap_const_none,
          List.nil_append]
      rw [hL, ih cur (acc ++ [next]), hR]

/-- The filesystem of the claim C7 scenario: `/Users/alice/work/myapp` and its
ancestors exist, the alternative segmentation `/Users/alice-work/myapp` does
not. -/
def c7Fsys : String → Bool :=
  fun s => (["/Users", "/Users/alice", "/Users/alice/work", "/Users/alice/work/myapp"].contains s)

/-- Claim C7: `tryResolveCodePath` realises the depth-first,
smallest-merge-first search over the segmentations of the dash-split
fragments, pruned by filesystem existence of every intermediate prefix,
returning the full path of the first surviving segmentation and `null` when
none survives; and the token `Users-alice-work-myapp` resolves to
`/Users/alice/work/myapp` (home-shortened when applicable), not the
alternative segmentation. -/
theorem tryResolveCodePath_enumeration :
    (∀ (fsys : String → Bool) (name p q : String) (rest : List String),
      splitDash name = p :: q :: rest →
      tryResolveCodePath fsys name = firstOK fsys "" (compFrom [p] (q :: rest))) ∧
    resolveProjectName c7Fsys "/home/bob" none "Users-alice-work-myapp" =
      "/Users/alice/work/myapp" := by
  constructor
  · intro fsys name p q rest h
    unfold tryResolveCodePath
    rw [h]
    exact tryFrom_eq_firstOK fsys (q :: rest) "" [p]
  · rfl

theorem tryResolveCodePath_enumeration_witness :
    splitDash "a-b" = "a" :: "b" :: [] ∧
    tryResolveCodePath (fun _ => false) "a-b" =
      firstOK (fun _ => false) "" (compFrom ["a"] ["b"]) :=
  ⟨rfl, tryResolveCodePath_enumeration.1 (fun _ => false) "a-b" "a" "b" [] rfl⟩
